import Mathlib

/-!
A verification model of the interactive HDF5 browser in
`src/HDF5_Browser.py`.  The hierarchy of groups and datasets, the
command dispatcher of `browse_hdf5`, and the report printers
(`print_ls`, `print_dataset`, `print_attrs`) are embedded as
executable Lean definitions; the theorems at the end of the file
settle the specification claims against them.

The storage engine (h5py) and the numpy printing primitives are not
part of the repository's source; where their behaviour decides a
claim they are modelled from the specification, and each such
definition says so in its doc comment.
-/

/-- A regular multi-dimensional array as numpy would hold it: a
scalar, or a list of sub-arrays along the leading axis. -/
inductive NpArray where
  | scalar (v : Int)
  | arr (elems : List NpArray)

/-- The outcome of materialising a dataset's contents, mirroring the
three branches of the `try` in `print_dataset` (src lines 70-83):
a regular array (printed through numpy's bounded formatter), a
`TypeError`-style special value (e.g. VLEN strings) printed raw and
in full, or any other read failure reported as an annotation. -/
inductive DataRead where
  | ok (a : NpArray)
  | typeErr (raw : List String)
  | readFail (msg : String)

/-- A node of the open container's hierarchy.  `group` carries its
named children (names are unique, case-sensitive) and its attribute
table; `dataset` carries shape, dtype descriptor, attribute table,
optional chunk layout, optional compression codec and the result of
reading its data (the outcome of `dataset[()]` in
`print_dataset`, src lines 72-83). -/
inductive HNode where
  | group (children : List (String × HNode)) (attrib : List (String × String))
  | dataset (shape : List Nat) (dtype : String) (attrib : List (String × String))
      (chunks : Option (List Nat)) (compression : Option String) (data : DataRead)

mutual

/-- Modelled from the spec: numpy's total element count `a.size`,
used by the print-truncation threshold test. -/
def NpArray.size : NpArray → Nat
  | .scalar _ => 1
  | .arr es => NpArray.sizeList es

def NpArray.sizeList : List NpArray → Nat
  | [] => 0
  | a :: as => a.size + NpArray.sizeList as

end

mutual

/-- All elements of an array, flattened in row-major order. -/
def NpArray.elems : NpArray → List Int
  | .scalar v => [v]
  | .arr es => NpArray.elemsList es

def NpArray.elemsList : List NpArray → List Int
  | [] => []
  | a :: as => a.elems ++ NpArray.elemsList as

end

/-- One token of a rendered data preview: a formatted element or the
elision marker numpy inserts for summarised axes. -/
inductive Tok where
  | elem (s : String)
  | ellipsis
deriving DecidableEq

mutual

/-- Modelled from the spec: numpy's array formatter under
`np.printoptions(threshold, edgeitems)` (src line 76).  `doSum` is
numpy's global summarisation flag (set when the total element count
exceeds the threshold); an axis longer than `2 * edge` is rendered as
its `edge` leading and `edge` trailing members with the elision
marker between them, any other axis is rendered in full. -/
def npSummarize (doSum : Bool) (edge : Nat) : NpArray → List Tok
  | .scalar v => [Tok.elem (toString v)]
  | .arr es =>
    let rendered := npSummarizeList doSum edge es
    if doSum && decide (2 * edge < es.length) then
      (rendered.take edge).flatten ++ [Tok.ellipsis]
        ++ (rendered.drop (es.length - edge)).flatten
    else rendered.flatten

def npSummarizeList (doSum : Bool) (edge : Nat) : List NpArray → List (List Tok)
  | [] => []
  | a :: as => npSummarize doSum edge a :: npSummarizeList doSum edge as

end

/-- Modelled from the spec: printing an array under
`np.printoptions(threshold := t, edgeitems := e)` — summarisation is
enabled exactly when the array's total element count exceeds the
threshold. -/
def npPrint (threshold edge : Nat) (a : NpArray) : List Tok :=
  npSummarize (decide (threshold < a.size)) edge a

/-- The data portion of a dataset preview: numpy-formatted tokens for
a regular array, the raw full rendering of the `TypeError` fallback
(src line 81), or the non-fatal annotation for any other read
failure (src line 83). -/
inductive Preview where
  | toks (ts : List Tok)
  | raw (es : List String)
  | unavailable (msg : String)
deriving DecidableEq

/-- The structured content printed by `print_dataset`
(src lines 53-84). -/
structure DatasetReport where
  path : String
  shape : List Nat
  dtype : String
  size : Nat
  chunks : Option (List Nat)
  compression : Option String
  attrib : List (String × String)
  preview : Preview
deriving DecidableEq

/-- One user-visible message of the browser, one constructor per
print site of the source. -/
inductive Out where
  | helpText
  | lsHeader (path : String)
  | lsEmpty
  | lsGroup (name : String)
  | lsDataset (name : String) (shape : List Nat) (dtype : String)
  | lsDatasetErr (name : String)
  | pwdOut (path : String)
  | cdUsage
  | alreadyAtRoot
  | cdNotAGroup (name : String)
  | cdNotFound (loc : String) (name : String)
  | catUsage
  | catIsAGroup (name : String)
  | catNotFound (loc : String) (name : String)
  | datasetReport (r : DatasetReport)
  | attrsHeader (path : String)
  | attrsNone
  | attrEntry (key : String) (value : String)
  | attrsNotFound (loc : String) (name : String)
  | unknownCmd (cmd : String)
  | exitMsg
  | eofMsg
  | intrMsg
  | openFail
deriving DecidableEq

/-- Python's `sep.join(parts)`. -/
def joinSep (sep : String) : List String → String
  | [] => ""
  | [x] => x
  | x :: y :: xs => x ++ sep ++ joinSep sep (y :: xs)

/-- Modelled from the spec: the absolute path (`.name` in h5py) of
the node addressed by a component list — the slash-joined
concatenation of ancestor names, the root being just a slash. -/
def pathString (p : List String) : String :=
  "/" ++ joinSep "/" p

/-- Modelled from the spec: the storage adapter's exact,
case-sensitive lookup of a single child name in a collection's
(unique-keyed) child list. -/
def lookupChild (name : String) : List (String × HNode) → Option HNode
  | [] => none
  | (k, v) :: rest => if k = name then some v else lookupChild name rest

/-- Child entries of a node (a dataset has none). -/
def HNode.items : HNode → List (String × HNode)
  | .group cs _ => cs
  | .dataset _ _ _ _ _ _ => []

/-- Attribute table of a node. -/
def HNode.attrib : HNode → List (String × String)
  | .group _ a => a
  | .dataset _ _ a _ _ _ => a

/-- Modelled from the spec: single-level resolution of a child name
against a node — membership (`name in group`) and indexing
(`group[name]`) of the storage adapter, an exact, case-sensitive key
lookup among the immediate children with no normalisation of the
token. -/
def childOf (n : HNode) (name : String) : Option HNode :=
  lookupChild name n.items

/-- True exactly on collection (group) nodes. -/
def HNode.isGroup : HNode → Bool
  | .group _ _ => true
  | .dataset _ _ _ _ _ _ => false

/-- True exactly on value (dataset) nodes. -/
def HNode.isDataset : HNode → Bool
  | .group _ _ => false
  | .dataset _ _ _ _ _ _ => true

/-- The node addressed by a component list, stepping through
`childOf` from the root; `none` when some component is absent. -/
def nodeAt (root : HNode) : List String → Option HNode
  | [] => some root
  | x :: xs =>
    match childOf root x with
    | some n => nodeAt n xs
    | none => none

/-- The session's current group: the node addressed by the current
path (total, with the root as an out-of-invariant fallback). -/
def curNode (root : HNode) (path : List String) : HNode :=
  (nodeAt root path).getD root

/-- Splitting a character list at slashes, keeping empty segments
(the segment accumulator is kept reversed). -/
def splitSlashAux : List Char → List Char → List (List Char)
  | [], acc => [acc.reverse]
  | c :: cs, acc =>
    if c = '/' then acc.reverse :: splitSlashAux cs []
    else splitSlashAux cs (c :: acc)

/-- Hop-by-hop resolution of a slash-separated token, for contrast:
the browser never does this — see the single-level `childOf`. -/
def multiHopResolve (n : HNode) (t : String) : Option HNode :=
  ((splitSlashAux t.data []).map (fun cs => String.mk cs)).foldl
    (fun acc seg => match acc with
      | some m => childOf m seg
      | none => none)
    (some n)

/-- Group-name half of a child partition (`print_ls`, src lines
31-35): names of children that are groups, in store order. -/
def groupNamesOf (items : List (String × HNode)) : List String :=
  (items.filter (fun p => p.2.isGroup)).map Prod.fst

/-- Dataset-name half of a child partition (`print_ls`, src lines
31-35). -/
def datasetNamesOf (items : List (String × HNode)) : List String :=
  (items.filter (fun p => p.2.isDataset)).map Prod.fst

/-- Python's `sorted` on a list of names: lexicographic ascending. -/
def sortNames (ns : List String) : List String :=
  ns.insertionSort (· ≤ ·)

/-- The detail line `print_ls` emits for one dataset child (src
lines 46-51): shape and dtype on a successful metadata read, an
annotated entry otherwise. -/
def lsDatasetLine (items : List (String × HNode)) (d : String) : Out :=
  match lookupChild d items with
  | some (HNode.dataset sh dt _ _ _ _) => Out.lsDataset d sh dt
  | _ => Out.lsDatasetErr d

/-- Embedding of `print_ls` (src lines 24-51): header, then — unless
the group is empty, which is reported distinctly — the sorted group
names followed by the sorted dataset names. -/
def print_ls (gPath : String) (g : HNode) : List Out :=
  if groupNamesOf g.items = [] ∧ datasetNamesOf g.items = [] then
    [Out.lsHeader gPath, Out.lsEmpty]
  else
    [Out.lsHeader gPath]
      ++ (sortNames (groupNamesOf g.items)).map Out.lsGroup
      ++ (sortNames (datasetNamesOf g.items)).map (lsDatasetLine g.items)

/-- The data preview assembled by the `try`/`except` of
`print_dataset` (src lines 70-83). -/
def dataPreview : DataRead → Preview
  | .ok a => .toks (npPrint 100 10 a)
  | .typeErr raw => .raw raw
  | .readFail msg => .unavailable msg

/-- Embedding of `print_dataset` (src lines 53-84): the full report
for one dataset node. -/
def print_dataset (dsPath : String) (shape : List Nat) (dtype : String)
    (attrib : List (String × String)) (chunks : Option (List Nat))
    (compression : Option String) (data : DataRead) : Out :=
  Out.datasetReport ⟨dsPath, shape, dtype, shape.prod, chunks, compression,
    attrib, dataPreview data⟩

/-- The attribute block printed for one node (src lines 96-103): a
header, then either the distinct "no attributes" marker or the
entries. -/
def attrsBody (p : String) (a : List (String × String)) : List Out :=
  if a = [] then [Out.attrsHeader p, Out.attrsNone]
  else Out.attrsHeader p :: a.map (fun kv => Out.attrEntry kv.1 kv.2)

/-- Embedding of `print_attrs` (src lines 86-103).  A present,
non-empty target name is resolved as a single child of the current
group (`item_name in group`, src line 90); an absent or empty one
(Python truthiness of `if item_name`) selects the current group
itself. -/
def print_attrs (root : HNode) (path : List String)
    (itemName : Option String) : List Out :=
  match itemName with
  | some nm =>
    if nm = "" then attrsBody (pathString path) (curNode root path).attrib
    else
      match childOf (curNode root path) nm with
      | some it => attrsBody (pathString (path ++ [nm])) it.attrib
      | none => [Out.attrsNotFound (pathString path) nm]
  | none => attrsBody (pathString path) (curNode root path).attrib

/-- Result of dispatching one command: continue the session with a
(possibly updated) current path, or leave the loop. -/
inductive StepResult where
  | cont (path : List String) (outs : List Out)
  | halt (outs : List Out)
deriving DecidableEq

def StepResult.isHalt : StepResult → Bool
  | .halt _ => true
  | .cont _ _ => false

/-- Embedding of the `cd` branch (src lines 155-182).  The argument
tokens are rejoined with single spaces; `..` is a parent move guarded
by the name-based root check (src line 164), `/` jumps to the root,
and any other token is a single-level child lookup that moves only
onto a group. -/
def cdCommand (root : HNode) (path : List String) (args : List String) :
    StepResult :=
  if args = [] then .cont path [Out.cdUsage]
  else
    if joinSep " " args = ".." then
      if pathString path = "/" then .cont path [Out.alreadyAtRoot]
      else .cont path.dropLast []
    else if joinSep " " args = "/" then .cont [] []
    else
      match childOf (curNode root path) (joinSep " " args) with
      | some (HNode.group _ _) => .cont (path ++ [joinSep " " args]) []
      | some (HNode.dataset _ _ _ _ _ _) =>
        .cont path [Out.cdNotAGroup (joinSep " " args)]
      | none => .cont path [Out.cdNotFound (pathString path) (joinSep " " args)]

/-- Embedding of the `cat` / `view` branch (src lines 184-197). -/
def catCommand (root : HNode) (path : List String) (args : List String) :
    StepResult :=
  if args = [] then .cont path [Out.catUsage]
  else
    match childOf (curNode root path) (joinSep " " args) with
    | some (HNode.dataset sh dt a ch co da) =>
      .cont path
        [print_dataset (pathString (path ++ [joinSep " " args])) sh dt a ch co da]
    | some (HNode.group _ _) => .cont path [Out.catIsAGroup (joinSep " " args)]
    | none => .cont path [Out.catNotFound (pathString path) (joinSep " " args)]

/-- Embedding of the `attrs` branch (src lines 199-201): only the
first argument token is used (`args[0] if args else None`). -/
def attrsCommand (root : HNode) (path : List String) (args : List String) :
    StepResult :=
  .cont path (print_attrs root path args.head?)

/-- Embedding of the command dispatch chain of `browse_hdf5`
(src lines 141-204), after the verb has been lower-cased. -/
def handleCommand (root : HNode) (path : List String) (cmd : String)
    (args : List String) : StepResult :=
  if cmd = "exit" ∨ cmd = "quit" ∨ cmd = "q" then .halt [Out.exitMsg]
  else if cmd = "help" then .cont path [Out.helpText]
  else if cmd = "ls" then .cont path (print_ls (pathString path) (curNode root path))
  else if cmd = "pwd" then .cont path [Out.pwdOut (pathString path)]
  else if cmd = "cd" then cdCommand root path args
  else if cmd = "cat" ∨ cmd = "view" then catCommand root path args
  else if cmd = "attrs" then attrsCommand root path args
  else .cont path [Out.unknownCmd cmd]

/-- Splitting a character list on whitespace runs, dropping empty
pieces (the word accumulator is kept reversed). -/
def splitWsAux : List Char → List Char → List (List Char)
  | [], acc => if acc = [] then [] else [acc.reverse]
  | c :: cs, acc =>
    if c.isWhitespace then
      if acc = [] then splitWsAux cs []
      else acc.reverse :: splitWsAux cs []
    else splitWsAux cs (c :: acc)

/-- Modelled from Python's `line.split()` (src line 130): split on
whitespace runs, dropping empty pieces. -/
def tokenize (s : String) : List String :=
  (splitWsAux s.data []).map (fun cs => String.mk cs)

/-- Modelled from Python's `str.strip()` with no arguments
(src line 126): remove leading and trailing whitespace. -/
def pyStrip (s : String) : String :=
  String.mk (((s.data.dropWhile Char.isWhitespace).reverse.dropWhile
    Char.isWhitespace).reverse)

/-- Modelled from Python's `str.lower()` (src line 131) on the ASCII
command verbs: lower-case every character. -/
def pyLower (s : String) : String :=
  String.mk (s.data.map Char.toLower)

/-- Embedding of one iteration of the `browse_hdf5` loop body on a
successfully read line (src lines 126-204): strip the line,
re-prompt silently when nothing remains, otherwise split it and
dispatch on the lower-cased first token. -/
def handleLine (root : HNode) (path : List String) (s : String) : StepResult :=
  if pyStrip s = "" then .cont path []
  else
    match tokenize (pyStrip s) with
    | [] => .cont path []
    | c :: args => handleCommand root path (pyLower c) args

/-- One event delivered by the interactive line source: a read line,
end-of-input (`EOFError`), or an interrupt (`KeyboardInterrupt`). -/
inductive InEvent where
  | line (s : String)
  | eofEv
  | intrEv
deriving DecidableEq

/-- An observable action of a session: a printed message, or the
release of the storage handle (`f.close()`, src line 206). -/
inductive Act where
  | out (o : Out)
  | closeFile
deriving DecidableEq

/-- The `while True` loop of `browse_hdf5` (src lines 120-204) over a
finite event list: returns the final current path, the emitted
actions, and whether the loop was left by a `break` (an exhausted
event list means the session is still waiting for input). -/
def runLoop (root : HNode) : List String → List InEvent →
    List String × List Act × Bool
  | path, [] => (path, [], false)
  | path, InEvent.eofEv :: _ => (path, [Act.out Out.eofMsg], true)
  | path, InEvent.intrEv :: _ => (path, [Act.out Out.intrMsg], true)
  | path, InEvent.line s :: rest =>
    match handleLine root path s with
    | .halt outs => (path, outs.map Act.out, true)
    | .cont p2 outs =>
      let r := runLoop root p2 rest
      (r.1, outs.map Act.out ++ r.2.1, r.2.2)

/-- Embedding of `browse_hdf5` (src lines 106-206): a failed open
reports the failure and returns before any handle exists; otherwise
the loop runs from the root and `f.close()` follows the loop's
`break`. -/
def browse_hdf5 (openResult : Except String HNode)
    (events : List InEvent) : List Act :=
  match openResult with
  | .error _ => [Act.out Out.openFail]
  | .ok root =>
    (runLoop root [] events).2.1
      ++ (if (runLoop root [] events).2.2 then [Act.closeFile] else [])

/-- Decidable form of the session invariant: the current path
addresses a group node of the tree. -/
def isGroupAt (root : HNode) (path : List String) : Bool :=
  match nodeAt root path with
  | some (HNode.group _ _) => true
  | _ => false

/-- The lower-cased verb of an input line, if any. -/
def verbOf (s : String) : Option String :=
  (tokenize (pyStrip s)).head?.map pyLower

/-- A sample dataset node nested as `/a/b`. -/
def dsB : HNode :=
  HNode.dataset [2] "int32" [] none none
    (DataRead.ok (NpArray.arr [NpArray.scalar 7, NpArray.scalar 8]))

/-- A sample dataset node `/g1/d1` with shape `(5,)`. -/
def dsD1 : HNode :=
  HNode.dataset [5] "int32" [] none none
    (DataRead.ok (NpArray.arr [NpArray.scalar 0, NpArray.scalar 1,
      NpArray.scalar 2, NpArray.scalar 3, NpArray.scalar 4]))

/-- A sample dataset node whose name contains a space. -/
def dsSpace : HNode :=
  HNode.dataset [3] "float64" [("k", "v")] none none
    (DataRead.ok (NpArray.arr [NpArray.scalar 1, NpArray.scalar 2,
      NpArray.scalar 3]))

/-- Child list of the sample container's root. -/
def sampleItems : List (String × HNode) :=
  [("g1", HNode.group [("d1", dsD1)] []),
   ("a", HNode.group [("b", dsB)] []),
   ("my data", dsSpace)]

/-- A sample container: groups `g1` (holding dataset `d1`) and `a`
(holding dataset `b`), and a root-level dataset named `my data`. -/
def sampleTree : HNode :=
  HNode.group sampleItems []

/-- The raw rendering of a 101-element unrepresentable dataset. -/
def raws101 : List String :=
  (List.range 101).map (fun n => toString n)

/-- Projection of the structured dataset report out of a message. -/
def reportOf : Out → Option DatasetReport
  | Out.datasetReport r => some r
  | _ => none

/-- How many data elements a preview renders. -/
def previewElemCount : Preview → Nat
  | .toks ts => (ts.filter (fun t => match t with | Tok.elem _ => true | _ => false)).length
  | .raw es => es.length
  | .unavailable _ => 0

/-- Whether a preview contains the elision marker. -/
def previewHasMarker : Preview → Bool
  | .toks ts => ts.contains Tok.ellipsis
  | .raw _ => false
  | .unavailable _ => false

/-- A one-dimensional array. -/
def oneD (vs : List Int) : NpArray :=
  NpArray.arr (vs.map NpArray.scalar)

/-- The integers 0 to 100, as one-dimensional sample data. -/
def intRange101 : List Int :=
  (List.range 101).map (fun n => (n : Int))

/-! ### Helper lemmas about the numpy formatting model -/

theorem npSummarizeList_eq_map (doSum : Bool) (edge : Nat) (l : List NpArray) :
    npSummarizeList doSum edge l = l.map (npSummarize doSum edge) := by
  induction l with
  | nil => simp [npSummarizeList]
  | cons a as ih => simp [npSummarizeList, ih]

theorem elemsList_eq_map (l : List NpArray) :
    NpArray.elemsList l = (l.map NpArray.elems).flatten := by
  induction l with
  | nil => simp [NpArray.elemsList]
  | cons a as ih => simp [NpArray.elemsList, ih]

theorem flatten_map_singleton {α β : Type} (f : α → β) (l : List α) :
    (l.map (fun v => [f v])).flatten = l.map f := by
  induction l with
  | nil => simp
  | cons a as ih => simp [ih]

theorem size_oneD (vs : List Int) : (oneD vs).size = vs.length := by
  suffices h : NpArray.sizeList (vs.map NpArray.scalar) = vs.length by
    simpa [oneD, NpArray.size] using h
  induction vs with
  | nil => simp [NpArray.sizeList]
  | cons v vs ih =>
    simp [NpArray.sizeList, NpArray.size, ih]
    omega

theorem npSummarize_false (edge : Nat) (a : NpArray) :
    npSummarize false edge a = a.elems.map (fun v => Tok.elem (toString v)) := by
  have main : ∀ (n : Nat) (b : NpArray), sizeOf b ≤ n →
      npSummarize false edge b = b.elems.map (fun v => Tok.elem (toString v)) := by
    intro n
    induction n with
    | zero =>
      intro b h
      exfalso
      cases b <;> simp at h
    | succ n ih =>
      intro b h
      cases b with
      | scalar v => simp [npSummarize, NpArray.elems]
      | arr es =>
        have hes : sizeOf es ≤ n := by
          have := NpArray.arr.sizeOf_spec es
          omega
      
        simp only [npSummarize, npSummarizeList_eq_map, Bool.false_and,
          Bool.false_eq_true, if_false, NpArray.elems, elemsList_eq_map,
          List.map_flatten, List.map_map]
        congr 1
        apply List.map_congr_left
        intro x hx
        have hlt : sizeOf x < sizeOf es := List.sizeOf_lt_of_mem hx
        exact ih x (by omega)
  exact main (sizeOf a) a le_rfl

/-! ### Helper lemmas about paths and navigation -/

theorem nodeAt_append (root : HNode) (p : List String) (t : String) :
    nodeAt root (p ++ [t]) = (nodeAt root p).bind (fun n => childOf n t) := by
  induction p generalizing root with
  | nil =>
    cases hc : childOf root t <;> simp [nodeAt, hc]
  | cons x xs ih =>
    cases hc : childOf root x <;> simp [nodeAt, hc, ih]

theorem childOf_some_isGroup (n : HNode) (t : String) (m : HNode)
    (h : childOf n t = some m) : n.isGroup = true := by
  cases n with
  | group cs a => rfl
  | dataset sh dt a ch co da => simp [childOf, HNode.items, lookupChild] at h

theorem isGroupAt_iff (root : HNode) (p : List String) :
    isGroupAt root p = true ↔ ∃ cs a, nodeAt root p = some (HNode.group cs a) := by
  unfold isGroupAt
  cases h : nodeAt root p with
  | none => simp
  | some n => cases n <;> simp

theorem isGroupAt_concat (root : HNode) (p : List String) (t : String)
    (h : isGroupAt root (p ++ [t]) = true) : isGroupAt root p = true := by
  rw [isGroupAt_iff] at h ⊢
  obtain ⟨cs, a, h⟩ := h
  rw [nodeAt_append] at h
  cases hn : nodeAt root p with
  | none => rw [hn] at h; simp at h
  | some m =>
    rw [hn] at h
    simp only [Option.some_bind] at h
    have hg := childOf_some_isGroup m t _ h
    cases m with
    | group cs2 a2 => exact ⟨cs2, a2, rfl⟩
    | dataset sh dt a2 ch co da => simp [HNode.isGroup] at hg

theorem isGroupAt_dropLast (root : HNode) (p : List String)
    (h : isGroupAt root p = true) : isGroupAt root p.dropLast = true := by
  rcases List.eq_nil_or_concat p with hnil | ⟨q, x, rfl⟩
  · subst hnil; simpa using h
  · rw [List.concat_eq_append] at h ⊢
    rw [List.dropLast_concat]
    exact isGroupAt_concat root q x h

theorem isGroupAt_nil (root : HNode) (hroot : root.isGroup = true) :
    isGroupAt root [] = true := by
  cases root with
  | group cs a => rfl
  | dataset sh dt a ch co da => simp [HNode.isGroup] at hroot

theorem joinSep_cons_length (c : String) (cs : List String) :
    c.length ≤ (joinSep "/" (c :: cs)).length := by
  cases cs with
  | nil => simp [joinSep]
  | cons y ys =>
    have h1 : ("/" : String).length = 1 := rfl
    simp [joinSep, String.length_append]
    omega

theorem pathString_ne_root (c : String) (cs : List String) (hc : c ≠ "") :
    pathString (c :: cs) ≠ "/" := by
  intro h
  have hl := congrArg String.length h
  have h1 : ("/" : String).length = 1 := rfl
  rw [pathString, String.length_append, h1] at hl
  have hj := joinSep_cons_length c cs
  have hc0 : 0 < c.length := by
    rcases Nat.eq_zero_or_pos c.length with h0 | h0
    · refine absurd ?_ hc
      cases c with
      | mk data =>
        simp [String.length] at h0
        subst h0
        rfl
    · exact h0
  omega

theorem pathString_nil : pathString [] = "/" := rfl

/-! ### Dispatcher characterisation lemmas -/

theorem cdCommand_not_halt (root : HNode) (path : List String) (args : List String) :
    (cdCommand root path args).isHalt = false := by
  unfold cdCommand
  repeat' split
  all_goals rfl

theorem catCommand_not_halt (root : HNode) (path : List String) (args : List String) :
    (catCommand root path args).isHalt = false := by
  unfold catCommand
  repeat' split
  all_goals rfl

theorem handleCommand_isHalt (root : HNode) (path : List String) (cmd : String)
    (args : List String) :
    (handleCommand root path cmd args).isHalt = true ↔
      (cmd = "exit" ∨ cmd = "quit" ∨ cmd = "q") := by
  unfold handleCommand
  split
  · rename_i h
    exact iff_of_true rfl h
  · rename_i h
    refine iff_of_false ?_ h
    split
    · simp [StepResult.isHalt]
    · split
      · simp [StepResult.isHalt]
      · split
        · simp [StepResult.isHalt]
        · split
          · simp [cdCommand_not_halt root path args]
          · split
            · simp [catCommand_not_halt root path args]
            · split
              · simp [attrsCommand, StepResult.isHalt]
              · simp [StepResult.isHalt]

theorem handleCommand_halt_out (root : HNode) (path : List String) (cmd : String)
    (args : List String) (outs : List Out)
    (h : handleCommand root path cmd args = .halt outs) : outs = [Out.exitMsg] := by
  have hh : (handleCommand root path cmd args).isHalt = true := by rw [h]; rfl
  have hc := (handleCommand_isHalt root path cmd args).mp hh
  unfold handleCommand at h
  rw [if_pos hc] at h
  injection h with h2
  exact h2.symm

theorem cdCommand_cont_moves (root : HNode) (path : List String) (args : List String)
    (p2 : List String) (outs : List Out)
    (h : cdCommand root path args = .cont p2 outs) (hne : ¬ p2 = path) : outs = [] := by
  unfold cdCommand at h
  split at h
  · cases h; exact absurd rfl hne
  · split at h
    · split at h
      · cases h; exact absurd rfl hne
      · cases h; rfl
    · split at h
      · cases h; rfl
      · split at h
        · cases h; rfl
        · cases h; exact absurd rfl hne
        · cases h; exact absurd rfl hne

theorem catCommand_cont_path (root : HNode) (path : List String) (args : List String)
    (p2 : List String) (outs : List Out)
    (h : catCommand root path args = .cont p2 outs) : p2 = path := by
  unfold catCommand at h
  split at h
  · cases h; rfl
  · split at h
    · cases h; rfl
    · cases h; rfl
    · cases h; rfl

theorem handleCommand_moves_only_cd (root : HNode) (path : List String) (cmd : String)
    (args : List String) (p2 : List String) (outs : List Out)
    (h : handleCommand root path cmd args = .cont p2 outs) (hne : ¬ p2 = path) :
    cmd = "cd" ∧ outs = [] := by
  unfold handleCommand at h
  split at h
  · exact StepResult.noConfusion h
  · split at h
    · cases h; exact absurd rfl hne
    · split at h
      · cases h; exact absurd rfl hne
      · split at h
        · cases h; exact absurd rfl hne
        · split at h
          · rename_i hcd
            exact ⟨hcd, cdCommand_cont_moves root path args p2 outs h hne⟩
          · split at h
            · exact absurd (catCommand_cont_path root path args p2 outs h) hne
            · split at h
              · unfold attrsCommand at h; cases h; exact absurd rfl hne
              · cases h; exact absurd rfl hne

theorem cdCommand_preserves_group (root : HNode) (path : List String)
    (args : List String) (p2 : List String) (outs : List Out)
    (hroot : root.isGroup = true) (hinv : isGroupAt root path = true)
    (h : cdCommand root path args = .cont p2 outs) :
    isGroupAt root p2 = true := by
  unfold cdCommand at h
  split at h
  · cases h; exact hinv
  · split at h
    · split at h
      · cases h; exact hinv
      · cases h; exact isGroupAt_dropLast root path hinv
    · split at h
      · cases h; exact isGroupAt_nil root hroot
      · split at h
        · rename_i cs a hchild
          cases h
          rw [isGroupAt_iff]
          obtain ⟨cs0, a0, hn⟩ := (isGroupAt_iff root path).mp hinv
          refine ⟨cs, a, ?_⟩
          rw [nodeAt_append, hn, Option.some_bind]
          have hcur : curNode root path = HNode.group cs0 a0 := by
            simp [curNode, hn]
          rw [← hcur]
          exact hchild
        · cases h; exact hinv
        · cases h; exact hinv

theorem handleCommand_preserves_group (root : HNode) (path : List String)
    (cmd : String) (args : List String) (p2 : List String) (outs : List Out)
    (hroot : root.isGroup = true) (hinv : isGroupAt root path = true)
    (h : handleCommand root path cmd args = .cont p2 outs) :
    isGroupAt root p2 = true := by
  unfold handleCommand at h
  split at h
  · exact StepResult.noConfusion h
  · split at h
    · cases h; exact hinv
    · split at h
      · cases h; exact hinv
      · split at h
        · cases h; exact hinv
        · split at h
          · exact cdCommand_preserves_group root path args p2 outs hroot hinv h
          · split at h
            · rw [catCommand_cont_path root path args p2 outs h]; exact hinv
            · split at h
              · unfold attrsCommand at h; cases h; exact hinv
              · cases h; exact hinv

theorem handleLine_cases (root : HNode) (path : List String) (s : String) :
    handleLine root path s = .cont path [] ∨
    ∃ c args, tokenize (pyStrip s) = c :: args ∧
      handleLine root path s = handleCommand root path (pyLower c) args := by
  unfold handleLine
  split
  · exact Or.inl rfl
  · split
    · exact Or.inl rfl
    · rename_i c args htok
      exact Or.inr ⟨c, args, htok, rfl⟩

theorem handleLine_preserves_group (root : HNode) (path : List String) (s : String)
    (p2 : List String) (outs : List Out)
    (hroot : root.isGroup = true) (hinv : isGroupAt root path = true)
    (h : handleLine root path s = .cont p2 outs) : isGroupAt root p2 = true := by
  rcases handleLine_cases root path s with hc | ⟨c, args, htok, hc⟩
  · rw [hc] at h; cases h; exact hinv
  · rw [hc] at h
    exact handleCommand_preserves_group root path _ args p2 outs hroot hinv h

theorem handleLine_moves_only_cd (root : HNode) (path : List String) (s : String)
    (p2 : List String) (outs : List Out)
    (h : handleLine root path s = .cont p2 outs) (hne : ¬ p2 = path) :
    verbOf s = some "cd" ∧ outs = [] := by
  rcases handleLine_cases root path s with hc | ⟨c, args, htok, hc⟩
  · rw [hc] at h; cases h; exact absurd rfl hne
  · rw [hc] at h
    obtain ⟨hcmd, houts⟩ := handleCommand_moves_only_cd root path _ args p2 outs h hne
    refine ⟨?_, houts⟩
    rw [verbOf, htok]
    simp [hcmd]

/-! ### Session loop lemmas -/

theorem runLoop_halts_of_terminal (root : HNode) (events : List InEvent) :
    ∀ path, (InEvent.eofEv ∈ events ∨ InEvent.intrEv ∈ events) →
      (runLoop root path events).2.2 = true := by
  induction events with
  | nil =>
    intro path h
    rcases h with h | h <;> simp at h
  | cons ev rest ih =>
    intro path h
    cases ev with
    | eofEv => rfl
    | intrEv => rfl
    | line s =>
      have hr : InEvent.eofEv ∈ rest ∨ InEvent.intrEv ∈ rest := by
        rcases h with h | h
        · rcases List.mem_cons.mp h with h2 | h2
          · exact absurd h2 (by simp)
          · exact Or.inl h2
        · rcases List.mem_cons.mp h with h2 | h2
          · exact absurd h2 (by simp)
          · exact Or.inr h2
      cases hl : handleLine root path s with
      | halt outs =>
        unfold runLoop
        rw [hl]
      | cont p2 outs =>
        unfold runLoop
        rw [hl]
        simpa using ih p2 hr

theorem runLoop_halt_line (root : HNode) (path : List String) (s : String)
    (rest : List InEvent) (h : (handleLine root path s).isHalt = true) :
    (runLoop root path (InEvent.line s :: rest)).2.2 = true := by
  cases hl : handleLine root path s with
  | halt outs =>
    unfold runLoop
    rw [hl]
  | cont p2 outs =>
    rw [hl] at h
    exact absurd h (by simp [StepResult.isHalt])

theorem runLoop_preserves_group (root : HNode) (hroot : root.isGroup = true)
    (events : List InEvent) :
    ∀ path, isGroupAt root path = true →
      isGroupAt root (runLoop root path events).1 = true := by
  induction events with
  | nil => intro path h; exact h
  | cons ev rest ih =>
    intro path h
    cases ev with
    | eofEv => exact h
    | intrEv => exact h
    | line s =>
      cases hl : handleLine root path s with
      | halt outs =>
        unfold runLoop
        rw [hl]
        exact h
      | cont p2 outs =>
        unfold runLoop
        rw [hl]
        simpa using ih p2 (handleLine_preserves_group root path s p2 outs hroot h hl)

theorem browse_close (root : HNode) (events : List InEvent)
    (h : (runLoop root [] events).2.2 = true) :
    (browse_hdf5 (Except.ok root) events).getLast? = some Act.closeFile := by
  show ((runLoop root [] events).2.1
      ++ if (runLoop root [] events).2.2 = true then [Act.closeFile] else
        []).getLast? = some Act.closeFile
  rw [h]
  simp

/-! ### Listing lemmas -/

theorem lsDatasetLine_ne_lsEmpty (items : List (String × HNode)) (d : String) :
    lsDatasetLine items d ≠ Out.lsEmpty := by
  unfold lsDatasetLine
  split <;> simp

theorem groupNames_or_datasetNames_ne_nil (p : String × HNode)
    (rest : List (String × HNode)) :
    groupNamesOf (p :: rest) ≠ [] ∨ datasetNamesOf (p :: rest) ≠ [] := by
  cases hp : p.2 with
  | group cs a =>
    left
    simp [groupNamesOf, List.filter_cons, hp, HNode.isGroup]
  | dataset sh dt a ch co da =>
    right
    simp [datasetNamesOf, List.filter_cons, hp, HNode.isDataset]

theorem groupNames_append_datasetNames_perm (items : List (String × HNode)) :
    (groupNamesOf items ++ datasetNamesOf items).Perm (items.map Prod.fst) := by
  have hfilter : items.filter (fun p => p.2.isDataset)
      = items.filter (fun p => !(p.2.isGroup)) := by
    apply List.filter_congr
    intro p hp
    cases p.2 <;> rfl
  unfold groupNamesOf datasetNamesOf
  rw [hfilter, ← List.map_append]
  exact (List.filter_append_perm _ items).map Prod.fst

theorem sortNames_sorted (ns : List String) : (sortNames ns).Sorted (· ≤ ·) :=
  List.sorted_insertionSort _ ns

theorem sortNames_perm (ns : List String) : (sortNames ns).Perm ns :=
  List.perm_insertionSort _ ns

theorem lsEmpty_mem_print_ls (gPath : String) (items : List (String × HNode))
    (a : List (String × String)) :
    Out.lsEmpty ∈ print_ls gPath (HNode.group items a) ↔ items = [] := by
  cases items with
  | nil => simp [print_ls, groupNamesOf, datasetNamesOf, HNode.items]
  | cons p rest =>
    have hcond : ¬ (groupNamesOf (HNode.items (HNode.group (p :: rest) a)) = []
        ∧ datasetNamesOf (HNode.items (HNode.group (p :: rest) a)) = []) := by
      rcases groupNames_or_datasetNames_ne_nil p rest with hg | hd
      · intro hc
        exact hg (by simpa [HNode.items] using hc.1)
      · intro hc
        exact hd (by simpa [HNode.items] using hc.2)
    rw [print_ls, if_neg hcond]
    simp [List.mem_map, lsDatasetLine_ne_lsEmpty]

/-! ### Preview policy lemmas -/

theorem np_full_render (a : NpArray) (h : a.size ≤ 100) :
    npPrint 100 10 a = a.elems.map (fun v => Tok.elem (toString v)) := by
  unfold npPrint
  rw [decide_eq_false (not_lt.mpr h)]
  exact npSummarize_false 10 a

theorem np_no_marker (a : NpArray) (h : a.size ≤ 100) :
    Tok.ellipsis ∉ npPrint 100 10 a := by
  rw [np_full_render a h]
  simp

theorem np_over_threshold (a : NpArray) (h : 100 < a.size) :
    npPrint 100 10 a = npSummarize true 10 a := by
  unfold npPrint
  rw [decide_eq_true h]

theorem np_axis_unfold (es : List NpArray) :
    npSummarize true 10 (NpArray.arr es)
      = if 2 * 10 < es.length then
          ((es.take 10).map (npSummarize true 10)).flatten ++ [Tok.ellipsis]
            ++ ((es.drop (es.length - 10)).map (npSummarize true 10)).flatten
        else (es.map (npSummarize true 10)).flatten := by
  rw [npSummarize, npSummarizeList_eq_map]
  by_cases h : 2 * 10 < es.length
  · rw [if_pos h]
    simp [h, List.map_take, List.map_drop]
  · rw [if_neg h]
    simp [h]

theorem np_oneD_marker (vs : List Int) (h : 100 < vs.length) :
    npPrint 100 10 (oneD vs)
      = (vs.take 10).map (fun v => Tok.elem (toString v)) ++ [Tok.ellipsis]
        ++ (vs.drop (vs.length - 10)).map (fun v => Tok.elem (toString v)) := by
  have hover : 100 < (oneD vs).size := by rw [size_oneD]; exact h
  rw [np_over_threshold _ hover, oneD, np_axis_unfold]
  rw [if_pos (by simpa using (by omega : 2 * 10 < vs.length))]
  simp only [List.length_map]
  rw [← List.map_take, ← List.map_drop, List.map_map, List.map_map]
  have hcomp : (npSummarize true 10) ∘ NpArray.scalar
      = fun v : Int => [Tok.elem (toString v)] := by
    funext v
    rfl
  rw [hcomp, flatten_map_singleton, flatten_map_singleton]

/-! ### Claim theorems -/

/-- C1: a `cd`, `cat` or `attrs` token other than `..` and `/` is
resolved as one exact, case-sensitive child name of the current
location by the single-level lookup, and the command's outcome is
entirely determined by that lookup — a token with an embedded
separator is never traversed hop by hop. -/
theorem c1_single_level_lookup (root : HNode) (path : List String) (t : String)
    (hdd : t ≠ "..") (hs : t ≠ "/") (hne : t ≠ "") :
    (handleCommand root path "cd" [t] =
      match childOf (curNode root path) t with
      | some (HNode.group _ _) => StepResult.cont (path ++ [t]) []
      | some (HNode.dataset _ _ _ _ _ _) =>
        StepResult.cont path [Out.cdNotAGroup t]
      | none => StepResult.cont path [Out.cdNotFound (pathString path) t])
    ∧ (handleCommand root path "cat" [t] =
      match childOf (curNode root path) t with
      | some (HNode.dataset sh dt a ch co da) =>
        StepResult.cont path
          [print_dataset (pathString (path ++ [t])) sh dt a ch co da]
      | some (HNode.group _ _) => StepResult.cont path [Out.catIsAGroup t]
      | none => StepResult.cont path [Out.catNotFound (pathString path) t])
    ∧ (handleCommand root path "attrs" [t] =
      StepResult.cont path
        (match childOf (curNode root path) t with
        | some it => attrsBody (pathString (path ++ [t])) it.attrib
        | none => [Out.attrsNotFound (pathString path) t])) := by
  refine ⟨?_, ?_, ?_⟩
  · show cdCommand root path [t] = _
    unfold cdCommand
    rw [if_neg (by simp : ¬ ([t] : List String) = [])]
    rw [show joinSep " " [t] = t from rfl]
    rw [if_neg hdd, if_neg hs]
  · show catCommand root path [t] = _
    unfold catCommand
    rw [if_neg (by simp : ¬ ([t] : List String) = [])]
    rw [show joinSep " " [t] = t from rfl]
  · show StepResult.cont path (print_attrs root path (some t)) = _
    have hred : print_attrs root path (some t)
        = if t = "" then attrsBody (pathString path) (curNode root path).attrib
          else
            match childOf (curNode root path) t with
            | some it => attrsBody (pathString (path ++ [t])) it.attrib
            | none => [Out.attrsNotFound (pathString path) t] := rfl
    rw [hred, if_neg hne]

/-- Witness for C1: in the sample container the path `a/b` exists
hop by hop, yet `cd a/b`, `cat a/b` and `attrs a/b` at the root all
report not-found, because the token is looked up as one literal
child name. -/
theorem c1_single_level_lookup_witness :
    multiHopResolve sampleTree "a/b" = some dsB
    ∧ handleCommand sampleTree [] "cd" ["a/b"]
        = .cont [] [Out.cdNotFound "/" "a/b"]
    ∧ handleCommand sampleTree [] "cat" ["a/b"]
        = .cont [] [Out.catNotFound "/" "a/b"]
    ∧ handleCommand sampleTree [] "attrs" ["a/b"]
        = .cont [] [Out.attrsNotFound "/" "a/b"] := by
  have h := c1_single_level_lookup sampleTree [] "a/b"
    (by decide) (by decide) (by decide)
  exact ⟨rfl, h.1, h.2.1, h.2.2⟩

/-- C2: every command-level error is reported and leaves the session
active — the dispatcher halts only for the explicit exit verbs, and
then only with the exit message — while end-of-input and interrupt
events terminate the loop, and a failed open ends the run with just
the failure report. -/
theorem c2_error_propagation_policy :
    (∀ (root : HNode) (path : List String) (cmd : String) (args : List String),
        (handleCommand root path cmd args).isHalt = true
          ↔ (cmd = "exit" ∨ cmd = "quit" ∨ cmd = "q"))
    ∧ (∀ (root : HNode) (path : List String) (cmd : String) (args : List String)
        (outs : List Out), handleCommand root path cmd args = .halt outs →
          outs = [Out.exitMsg])
    ∧ (∀ (root : HNode) (path : List String) (rest : List InEvent),
        runLoop root path (InEvent.eofEv :: rest)
          = (path, [Act.out Out.eofMsg], true))
    ∧ (∀ (root : HNode) (path : List String) (rest : List InEvent),
        runLoop root path (InEvent.intrEv :: rest)
          = (path, [Act.out Out.intrMsg], true))
    ∧ (∀ (e : String) (events : List InEvent),
        browse_hdf5 (Except.error e) events = [Act.out Out.openFail]) := by
  refine ⟨handleCommand_isHalt, handleCommand_halt_out, ?_, ?_, ?_⟩
  · intro root path rest
    rfl
  · intro root path rest
    rfl
  · intro e events
    rfl

/-- Witness for C2: the exit verb halts the dispatcher and a failed
open yields only the failure report. -/
theorem c2_error_propagation_policy_witness :
    (handleCommand sampleTree [] "exit" []).isHalt = true
    ∧ browse_hdf5 (Except.error "nope") [] = [Act.out Out.openFail] :=
  ⟨(c2_error_propagation_policy.1 sampleTree [] "exit" []).mpr (Or.inl rfl),
   c2_error_propagation_policy.2.2.2.2 "nope" []⟩

/-- C3: the storage handle is released on every terminating run:
events reaching end-of-input or an interrupt (or a halting command
line) always set the loop's halt flag, and every halted run's final
action is the close of the handle. -/
theorem c3_close_on_every_exit :
    (∀ (root : HNode) (path : List String) (events : List InEvent),
        (InEvent.eofEv ∈ events ∨ InEvent.intrEv ∈ events) →
          (runLoop root path events).2.2 = true)
    ∧ (∀ (root : HNode) (path : List String) (s : String) (rest : List InEvent),
        (handleLine root path s).isHalt = true →
          (runLoop root path (InEvent.line s :: rest)).2.2 = true)
    ∧ (∀ (root : HNode) (events : List InEvent),
        (runLoop root [] events).2.2 = true →
          (browse_hdf5 (Except.ok root) events).getLast? = some Act.closeFile) := by
  refine ⟨?_, ?_, ?_⟩
  · intro root path events h
    exact runLoop_halts_of_terminal root events path h
  · intro root path s rest h
    exact runLoop_halt_line root path s rest h
  · intro root events h
    exact browse_close root events h

/-- Witness for C3: a session hitting end-of-input halts, and a
session ended by `exit` ends with the close action. -/
theorem c3_close_on_every_exit_witness :
    (runLoop sampleTree [] [InEvent.line "ls", InEvent.eofEv]).2.2 = true
    ∧ (browse_hdf5 (Except.ok sampleTree) [InEvent.line "exit"]).getLast?
        = some Act.closeFile :=
  ⟨c3_close_on_every_exit.1 sampleTree [] _ (Or.inl (by simp)),
   c3_close_on_every_exit.2.2 sampleTree [InEvent.line "exit"] rfl⟩

/-- C4: `cd` onto a name bound to a value node reports the kind
mismatch and leaves the current location untouched; in general a
`cd` either leaves the location exactly as before or fully succeeds
(parent, root, or a looked-up collection child) emitting no
message. -/
theorem c4_cd_atomicity (root : HNode) (path : List String) (args : List String) :
    ((args ≠ []) → ∀ sh dt a ch co da,
        childOf (curNode root path) (joinSep " " args)
            = some (HNode.dataset sh dt a ch co da) →
        joinSep " " args ≠ ".." → joinSep " " args ≠ "/" →
        cdCommand root path args
          = .cont path [Out.cdNotAGroup (joinSep " " args)])
    ∧ (∀ (p2 : List String) (outs : List Out),
        cdCommand root path args = .cont p2 outs →
          p2 = path
          ∨ (outs = [] ∧ (p2 = path.dropLast ∨ p2 = []
              ∨ ∃ cs a, p2 = path ++ [joinSep " " args]
                  ∧ childOf (curNode root path) (joinSep " " args)
                      = some (HNode.group cs a)))) := by
  constructor
  · intro hargs sh dt a ch co da hchild hdd hsl
    unfold cdCommand
    rw [if_neg hargs, if_neg hdd, if_neg hsl, hchild]
  · intro p2 outs h
    unfold cdCommand at h
    split at h
    · cases h
      exact Or.inl rfl
    · split at h
      · split at h
        · cases h
          exact Or.inl rfl
        · cases h
          exact Or.inr ⟨rfl, Or.inl rfl⟩
      · split at h
        · cases h
          exact Or.inr ⟨rfl, Or.inr (Or.inl rfl)⟩
        · split at h
          · rename_i cs a hchild
            cases h
            exact Or.inr ⟨rfl, Or.inr (Or.inr ⟨cs, a, rfl, hchild⟩)⟩
          · cases h
            exact Or.inl rfl
          · cases h
            exact Or.inl rfl

/-- Witness for C4: `cd my data` at the sample root addresses a
dataset, reports the kind mismatch and keeps the location. -/
theorem c4_cd_atomicity_witness :
    cdCommand sampleTree [] ["my", "data"]
      = .cont [] [Out.cdNotAGroup "my data"] :=
  (c4_cd_atomicity sampleTree [] ["my", "data"]).1 (by simp)
    [3] "float64" [("k", "v")] none none
    (DataRead.ok (NpArray.arr [NpArray.scalar 1, NpArray.scalar 2,
      NpArray.scalar 3]))
    rfl (by decide) (by decide)

/-- C5 counterexample: a 101-element dataset whose read takes the
`TypeError` fallback renders all 101 elements and no elision marker,
although its element count exceeds 100. -/
theorem c5_preview_counterexample :
    100 < 101
    ∧ (reportOf (print_dataset "/d" [101] "object" [] none none
          (DataRead.typeErr raws101))).map
        (fun r => (r.size, previewElemCount r.preview, previewHasMarker r.preview))
        = some (101, 101, false) := by
  exact ⟨by decide, rfl⟩

/-- C5 amended: when the data reads as a regular array, a preview of
at most 100 elements renders every element in order with no marker;
above 100 elements the formatter truncates exactly the axes longer
than twice the edge count to 10 leading and 10 trailing members
around the marker (in one dimension: exactly 10, the marker, and the
final 10), while the `TypeError` fallback renders its raw elements
in full. -/
theorem c5_preview_policy :
    (∀ a : NpArray, a.size ≤ 100 →
        npPrint 100 10 a = a.elems.map (fun v => Tok.elem (toString v)))
    ∧ (∀ a : NpArray, a.size ≤ 100 → Tok.ellipsis ∉ npPrint 100 10 a)
    ∧ (∀ a : NpArray, 100 < a.size → npPrint 100 10 a = npSummarize true 10 a)
    ∧ (∀ es : List NpArray, npSummarize true 10 (NpArray.arr es)
        = if 2 * 10 < es.length then
            ((es.take 10).map (npSummarize true 10)).flatten ++ [Tok.ellipsis]
              ++ ((es.drop (es.length - 10)).map (npSummarize true 10)).flatten
          else (es.map (npSummarize true 10)).flatten)
    ∧ (∀ vs : List Int, 100 < vs.length →
        npPrint 100 10 (oneD vs)
          = (vs.take 10).map (fun v => Tok.elem (toString v)) ++ [Tok.ellipsis]
            ++ (vs.drop (vs.length - 10)).map (fun v => Tok.elem (toString v)))
    ∧ (∀ raw : List String, dataPreview (DataRead.typeErr raw) = Preview.raw raw) :=
  ⟨np_full_render, np_no_marker, np_over_threshold, np_axis_unfold,
   np_oneD_marker, fun _ => rfl⟩

/-- Witness for C5 amended: a 3-element array renders in full and a
101-element one renders 10 leading and 10 trailing elements around
the marker. -/
theorem c5_preview_policy_witness :
    npPrint 100 10 (oneD [0, 1, 2])
      = ([0, 1, 2] : List Int).map (fun v => Tok.elem (toString v))
    ∧ npPrint 100 10 (oneD intRange101)
      = (intRange101.take 10).map (fun v => Tok.elem (toString v))
        ++ [Tok.ellipsis]
        ++ (intRange101.drop (intRange101.length - 10)).map
            (fun v => Tok.elem (toString v)) :=
  ⟨c5_preview_policy.1 (oneD [0, 1, 2]) (by decide),
   c5_preview_policy.2.2.2.2.1 intRange101 (by decide)⟩

/-- C6: `ls` partitions the children into group names and dataset
names, each sorted lexicographically ascending, jointly a
permutation of the child-name set (hence duplicate-free whenever the
child names are), and the distinct empty marker appears exactly for
a childless collection. -/
theorem c6_listing_sorted_partition (items : List (String × HNode))
    (a : List (String × String)) (gPath : String) :
    (sortNames (groupNamesOf items)).Sorted (· ≤ ·)
    ∧ (sortNames (datasetNamesOf items)).Sorted (· ≤ ·)
    ∧ (sortNames (groupNamesOf items) ++ sortNames (datasetNamesOf items)).Perm
        (items.map Prod.fst)
    ∧ ((items.map Prod.fst).Nodup →
        (sortNames (groupNamesOf items) ++ sortNames (datasetNamesOf items)).Nodup)
    ∧ (Out.lsEmpty ∈ print_ls gPath (HNode.group items a) ↔ items = []) := by
  have hperm : (sortNames (groupNamesOf items)
      ++ sortNames (datasetNamesOf items)).Perm (items.map Prod.fst) :=
    ((sortNames_perm _).append (sortNames_perm _)).trans
      (groupNames_append_datasetNames_perm items)
  refine ⟨sortNames_sorted _, sortNames_sorted _, hperm, ?_,
    lsEmpty_mem_print_ls gPath items a⟩
  intro hnodup
  exact hperm.nodup_iff.mpr hnodup

/-- Witness for C6: the sample root lists without duplicates, and an
empty group shows the empty marker. -/
theorem c6_listing_sorted_partition_witness :
    (sortNames (groupNamesOf sampleItems)
      ++ sortNames (datasetNamesOf sampleItems)).Nodup
    ∧ Out.lsEmpty ∈ print_ls "/" (HNode.group [] []) :=
  ⟨(c6_listing_sorted_partition sampleItems [] "/").2.2.2.1 (by decide),
   (c6_listing_sorted_partition [] [] "/").2.2.2.2.mpr rfl⟩

/-- C7 counterexample: `attrs my data` passes only the first token
`my` to the attribute printer and reports not-found, although the
rejoined name `my data` denotes a child whose attribute table the
rejoined semantics would report. -/
theorem c7_attrs_counterexample :
    handleLine sampleTree [] "attrs my data"
      = .cont [] [Out.attrsNotFound "/" "my"]
    ∧ print_attrs sampleTree [] (some "my data")
        = [Out.attrsHeader "/my data", Out.attrEntry "k" "v"]
    ∧ ([Out.attrsNotFound "/" "my"] : List Out)
        ≠ [Out.attrsHeader "/my data", Out.attrEntry "k" "v"] :=
  ⟨rfl, rfl, by decide⟩

/-- C7 amended: the `attrs` command consumes only its first argument
token — any further tokens are ignored, so dispatching with extra
tokens equals dispatching with the first token alone, and a
space-containing child name cannot be addressed. -/
theorem c7_attrs_first_token_only (root : HNode) (path : List String)
    (a : String) (rest : List String) :
    handleCommand root path "attrs" (a :: rest)
      = handleCommand root path "attrs" [a] := rfl

/-- C8: `cd ..` at the root is the informational "already at root"
outcome with the location unchanged; away from the root (component
names being non-empty) the location becomes its parent. -/
theorem c8_cd_parent (root : HNode) (path : List String) :
    (path = [] → cdCommand root path [".."] = .cont path [Out.alreadyAtRoot])
    ∧ (path ≠ [] → (∀ c ∈ path, c ≠ "") →
        cdCommand root path [".."] = .cont path.dropLast []) := by
  constructor
  · intro h
    subst h
    rfl
  · intro hne hcomp
    have hps : pathString path ≠ "/" := by
      cases path with
      | nil => exact absurd rfl hne
      | cons c cs => exact pathString_ne_root c cs (hcomp c (by simp))
    unfold cdCommand
    rw [if_neg (by simp : ¬ ([".."] : List String) = [])]
    rw [if_pos (show joinSep " " [".."] = ".." from rfl)]
    rw [if_neg hps]

/-- Witness for C8: concrete `cd ..` at the root and at `/g1`. -/
theorem c8_cd_parent_witness :
    cdCommand sampleTree [] [".."] = .cont [] [Out.alreadyAtRoot]
    ∧ cdCommand sampleTree ["g1"] [".."] = .cont [] [] := by
  constructor
  · exact (c8_cd_parent sampleTree []).1 rfl
  · exact (c8_cd_parent sampleTree ["g1"]).2 (by simp)
      (by intro c hc; rw [List.mem_singleton] at hc; subst hc; decide)

/-- C9: in every reachable session state the current location is a
collection node — it holds initially, is preserved by every handled
line and by every event sequence — and only a successful `cd`, which
emits no message, ever changes it. -/
theorem c9_location_always_group :
    (∀ root : HNode, root.isGroup = true → isGroupAt root [] = true)
    ∧ (∀ (root : HNode) (path : List String) (s : String) (p2 : List String)
        (outs : List Out), root.isGroup = true → isGroupAt root path = true →
          handleLine root path s = .cont p2 outs → isGroupAt root p2 = true)
    ∧ (∀ (root : HNode) (events : List InEvent), root.isGroup = true →
        isGroupAt root (runLoop root [] events).1 = true)
    ∧ (∀ (root : HNode) (path : List String) (s : String) (p2 : List String)
        (outs : List Out), handleLine root path s = .cont p2 outs → p2 ≠ path →
          verbOf s = some "cd" ∧ outs = []) := by
  refine ⟨isGroupAt_nil, ?_, ?_, ?_⟩
  · intro root path s p2 outs hroot hinv h
    exact handleLine_preserves_group root path s p2 outs hroot hinv h
  · intro root events hroot
    exact runLoop_preserves_group root hroot events [] (isGroupAt_nil root hroot)
  · intro root path s p2 outs h hne
    exact handleLine_moves_only_cd root path s p2 outs h hne

/-- Witness for C9: after the concrete line `cd g1` the current
location is still a collection node. -/
theorem c9_location_always_group_witness :
    isGroupAt sampleTree (runLoop sampleTree [] [InEvent.line "cd g1"]).1 = true :=
  c9_location_always_group.2.2.1 sampleTree [InEvent.line "cd g1"] rfl

/-- C10: an input line that is empty or consists only of whitespace
is skipped — the session stays active, the current location is
unchanged and no message is emitted. -/
theorem c10_blank_line_noop (root : HNode) (path : List String) (s : String)
    (h : pyStrip s = "") : handleLine root path s = .cont path [] := by
  unfold handleLine
  rw [if_pos h]

/-- Witness for C10 at a concrete whitespace-only line. -/
theorem c10_blank_line_noop_witness :
    pyStrip "   " = "" ∧ handleLine sampleTree ["g1"] "   " = .cont ["g1"] [] :=
  ⟨rfl, c10_blank_line_noop sampleTree ["g1"] "   " rfl⟩
